import Mathlib

/-!
# `podman patch` (cmd/podman/patch.go): a shallow embedding and its properties

The command mounts each target container, runs the host's `patch` tool on a
path inside the mount and unmounts the container again.  The embedding keeps
the control flow of the Go functions (`patchCmd`, `retrieveExisting`,
`canPatch`, `exists`, `patchContainers`, `applyPatch`) and makes the outside
world explicit:

* every call that leaves the process (container lookup, mount, unmount,
  `os.Stat`, running a program, a line on standard output) is recorded as an
  `Event`, in program order;
* the answers of the outside world are given by the records `Container`,
  `Runtime` and `Host`; an answer is a function of the arguments of the call;
* a Go function can return, stop the process with `os.Exit`, or fault at run
  time (index out of range); `Flow` says which.

`filepath.Join` belongs to the Go standard library; it is embedded from its
documented algorithm (`Clean` applied to the elements joined with `/`).
-/

namespace filepath

/-- Split a path at every `/` (like `strings.Split(path, "/")`). -/
def splitSlash : List Char → List (List Char)
  | [] => [[]]
  | c :: cs =>
    if c = '/' then [] :: splitSlash cs
    else match splitSlash cs with
      | [] => [[c]]
      | e :: es => (c :: e) :: es

/-- The parent-directory element `..`. -/
def dotdot : List Char := ['.', '.']

/-- One step of the loop of `Clean`: `stack` holds the elements written so far,
most recent first.  Empty elements and `.` are dropped; `..` removes the most
recent element when there is one to remove, is dropped at the root of a rooted
path, and is kept at the front of a relative path; any other element is
written. -/
def cleanStep (rooted : Bool) (stack : List (List Char)) (e : List Char) : List (List Char) :=
  if e = [] then stack
  else if e = ['.'] then stack
  else if e = dotdot then
    match stack with
    | [] => if rooted then [] else [dotdot]
    | top :: rest =>
      if rooted then rest
      else if top = dotdot then dotdot :: stack
      else rest
  else e :: stack

/-- The elements of a path after `Clean`, first element first. -/
def cleanElems (rooted : Bool) (path : List Char) : List (List Char) :=
  ((splitSlash path).foldl (cleanStep rooted) []).reverse

/-- Write a cleaned path: the leading `/` of a rooted path, the elements
separated by `/`, and `.` when nothing was written. -/
def render (rooted : Bool) (elems : List (List Char)) : List Char :=
  let body := List.intercalate ['/'] elems
  let out := if rooted then '/' :: body else body
  if out = [] then ['.'] else out

/-- Is the first character of the path a `/`? -/
def isRooted (path : List Char) : Bool :=
  match path with
  | c :: _ => c = '/'
  | [] => false

/-- Go's `filepath.Clean` on a Unix host. -/
def Clean (path : String) : String :=
  if path = "" then "."
  else String.mk (render (isRooted path.data) (cleanElems (isRooted path.data) path.data))

/-- Go's `filepath.Join` for two elements: empty leading elements are skipped,
the rest is joined with `/` and cleaned. -/
def Join (a b : String) : String :=
  if a ≠ "" then Clean (a ++ "/" ++ b)
  else if b ≠ "" then Clean b
  else ""

/-- A named element: not empty and not `.`. -/
def named (e : List Char) : Bool :=
  decide (e ≠ []) && decide (e ≠ ['.'])

/-- The named elements of a path: what lies between the slashes, without the
empty elements and without `.`. -/
def pathElems (path : String) : List (List Char) :=
  (splitSlash path.data).filter named

/-- Path `p` lies under directory `dir` (`dir` is a path ancestor of `p`, or
`p` itself): both are rooted or both are relative, and the elements of the
cleaned `dir` are the first elements of `p`. -/
def liesUnder (dir p : String) : Prop :=
  isRooted dir.data = isRooted p.data ∧ pathElems (Clean dir) <+: pathElems p

instance (dir p : String) : Decidable (liesUnder dir p) :=
  inferInstanceAs (Decidable (isRooted dir.data = isRooted p.data ∧
    pathElems (Clean dir) <+: pathElems p))

/-- An element as `Clean` writes it: named, and without a slash. -/
def GoodElem (e : List Char) : Prop :=
  named e = true ∧ '/' ∉ e

end filepath


namespace Patch

/-- What a Go function did when it stopped: it returned a value, it ended the
process through `os.Exit`, or it faulted at run time. -/
inductive Flow (α : Type) where
  | ret (a : α)
  | exit (code : Int)
  | fault (msg : String)
  deriving DecidableEq

/-- The calls that leave the process, and the lines written to standard output. -/
inductive Event where
  | println (line : String)
  | lookup (name : String)
  | listRunning
  | mount (ctr : String) (ok : Bool)
  | unmount (ctr : String) (force : Bool)
  | stat (path : String)
  | exec (prog : String) (args : List String)
  | shutdown (force : Bool)
  deriving DecidableEq

/-- A `*libpod.Container`: its `Name()` and the answer of its `Mount()`
(the mount point, or an error).  The answer of `Unmount` is discarded by the
program and is not represented. -/
structure Container where
  name : String
  mountResult : Except String String

/-- A `*libpod.Runtime`: `LookupContainer` and `GetRunningContainers`. -/
structure Runtime where
  lookup : String → Except String Container
  running : Except String (List Container)

/-- The three answers of `os.Stat` that `exists` tells apart. -/
inductive StatResult where
  | ok
  | notExist
  | otherError (msg : String)
  deriving DecidableEq

/-- The answer of `cmd.Run()`: the error (`none` for exit status zero) and what
the program wrote to standard error. -/
structure RunResult where
  err : Option String
  stderr : String

/-- The host: the file system seen through `os.Stat`, whether `which patch`
succeeds, and what running a program gives. -/
structure Host where
  stat : String → StatResult
  whichPatch : Bool
  run : String → List String → RunResult

/-- One invocation of the command: the positional arguments and flags of the
`cli.Context`, and what the start-up calls of `patchCmd` answer. -/
structure Invocation where
  args : List String
  all : Bool
  ignoreFail : Bool
  euid : Nat
  getRuntime : Except String Runtime
  graphDriverName : Option String
  becomeRoot : Except String (Bool × Int)

/-- Sequencing of two pieces of Go code: the second runs only when the first
returned. -/
def seq {α β : Type} (r : List Event × Flow α) (k : α → List Event × Flow β) :
    List Event × Flow β :=
  match r with
  | (t, .ret a) => (t ++ (k a).1, (k a).2)
  | (t, .exit c) => (t, .exit c)
  | (t, .fault m) => (t, .fault m)

/-- `canPatch`: true when `which patch` ran without error. -/
def canPatch (host : Host) : Bool :=
  if host.whichPatch = false then false else true

/-- `exists(path)`: false when `os.Stat` answers not-exist, true when it
answers without error, and true for any other error. -/
def exists_ (host : Host) (path : String) : Bool :=
  match host.stat path with
  | .notExist => false
  | .ok => true
  | .otherError _ => true

/-- `applyPatch(patch, dst, container, ignore)`. -/
def applyPatch (host : Host) (patch dst : String) (container : Container) (ignore : Bool) :
    List Event × Flow Unit :=
  let t0 := [Event.println ("Patching:  " ++ container.name)]
  match container.mountResult with
  | .error err => (t0 ++ [.mount container.name false, .println err], .exit 1)
  | .ok mountPoint =>
    let fulldest := filepath.Join mountPoint dst
    let t1 := t0 ++ [.mount container.name true, .stat fulldest]
    if exists_ host fulldest = false then
      let t2 := t1 ++ [.println ("File to patch not found: " ++ dst)]
      if ignore then
        (t2 ++ [.println ("Skipping container: " ++ container.name)], .ret ())
      else (t2, .exit 1)
    else
      let t2 := t1 ++ [.println ("Execute: patch  " ++ fulldest ++ " " ++ patch),
                       .exec "patch" [fulldest, patch]]
      let t3 := match (host.run "patch" [fulldest, patch]).err with
        | some errexec =>
          t2 ++ [.println (errexec ++ ": " ++ (host.run "patch" [fulldest, patch]).stderr)]
        | none => t2
      (t3 ++ [.unmount container.name true,
              .println (container.name ++ " patched successfully!")], .ret ())

/-- First loop of `patchContainers`: look every name up, appending the handle
to `ctrs`; a failed lookup prints the error and exits with status 1. -/
def lookupLoop (runtime : Runtime) : List String → List Container →
    List Event × Flow (List Container)
  | [], ctrs => ([], .ret ctrs)
  | container :: rest, ctrs =>
    match runtime.lookup container with
    | .error err => ([.lookup container, .println err], .exit 1)
    | .ok ctr => seq ([.lookup container], .ret ()) (fun _ => lookupLoop runtime rest (ctrs ++ [ctr]))

/-- Second loop of `patchContainers`: `applyPatch` on every handle in turn. -/
def applyLoop (host : Host) (patch dst : String) (ignore : Bool) :
    List Container → List Event × Flow Unit
  | [] => ([], .ret ())
  | ctr :: rest =>
    seq (applyPatch host patch dst ctr ignore) (fun _ => applyLoop host patch dst ignore rest)

/-- `patchContainers(runtime, patch, dst, containers, ignore)`; the returned
value is the `error` (`none` for `nil`). -/
def patchContainers (runtime : Runtime) (host : Host) (patch dst : String)
    (containers : List String) (ignore : Bool) : List Event × Flow (Option String) :=
  seq (lookupLoop runtime containers []) fun ctrs =>
  seq (applyLoop host patch dst ignore ctrs) fun _ =>
  ([], .ret none)

/-- `retrieveExisting(runtime)`: the names of the running containers. -/
def retrieveExisting (runtime : Runtime) : List Event × Flow (List String) :=
  match runtime.running with
  | .error err => ([.listRunning, .println err], .exit 1)
  | .ok runningPods => ([.listRunning], .ret (runningPods.map (fun c => c.name)))

/-- The rootless start-up block of `patchCmd`: `none` when the function goes
on, otherwise how it stopped.  Evaluating the graph driver name can fault when
`GetRuntime` gave no runtime. -/
def rootlessSetup (inv : Invocation) : Option (Flow (Option String)) :=
  if inv.euid ≠ 0 then
    match inv.graphDriverName with
    | none => some (.fault "invalid memory address or nil pointer dereference")
    | some _ =>
      match inv.becomeRoot with
      | .error err => some (.ret (some err))
      | .ok (became, ret) => if became then some (.exit ret) else none
  else none

/-- `defer runtime.Shutdown(false)`: runs when the function returns or faults,
not when the process exits. -/
def deferShutdown {α : Type} (r : List Event × Flow α) : List Event × Flow α :=
  match r with
  | (t, .exit c) => (t, .exit c)
  | (t, f) => (t ++ [.shutdown false], f)

/-- Body of `patchCmd` after the argument check. -/
def patchCmdBody (inv : Invocation) (host : Host) : List Event × Flow (Option String) :=
  match inv.getRuntime with
  | .error err => ([], .ret (some ("could not get runtime: " ++ err)))
  | .ok runtime =>
    deferShutdown <|
      match inv.args with
      | [] => ([], .fault "index out of range [0] with length 0")
      | [_] => ([], .fault "index out of range [1] with length 1")
      | dst :: patch :: rest =>
        seq (if inv.all = false then ([], .ret rest) else retrieveExisting runtime)
          fun containers =>
        if canPatch host = false then
          ([.exec "which" ["patch"], .println "Patch command not on your system"], .exit 1)
        else if exists_ host patch = false then
          ([.exec "which" ["patch"], .stat patch,
            .println ("Patch file not found: " ++ patch)], .exit 1)
        else
          seq ([.exec "which" ["patch"], .stat patch], .ret ()) fun _ =>
          patchContainers runtime host patch dst containers inv.ignoreFail

/-- `patchCmd(c)`. -/
def patchCmd (inv : Invocation) (host : Host) : List Event × Flow (Option String) :=
  match rootlessSetup inv with
  | some stop => ([], stop)
  | none =>
    if inv.args.length < 3 then
      if inv.all = true ∧ inv.args.length < 2 then
        ([], .ret (some "too few given arguments"))
      else patchCmdBody inv host
    else patchCmdBody inv host

/-! ### Reading a trace -/

/-- Names of the containers on which `Mount` was called, in order. -/
def mountCalls (t : List Event) : List String :=
  t.filterMap fun e => match e with
    | .mount c _ => some c
    | _ => none

/-- Number of `Mount` calls that succeeded. -/
def mountsSucceeded (t : List Event) : Nat :=
  (t.filter fun e => match e with
    | .mount _ true => true
    | _ => false).length

/-- Names of the containers on which `Unmount` was called, in order. -/
def unmountCalls (t : List Event) : List String :=
  t.filterMap fun e => match e with
    | .unmount c _ => some c
    | _ => none

/-- Names passed to `LookupContainer`, in order. -/
def lookupCalls (t : List Event) : List String :=
  t.filterMap fun e => match e with
    | .lookup n => some n
    | _ => none

/-- Paths whose existence was checked, in order. -/
def statCalls (t : List Event) : List String :=
  t.filterMap fun e => match e with
    | .stat p => some p
    | _ => none

/-- Argument lists of the invocations of the `patch` tool, in order. -/
def patchCalls (t : List Event) : List (List String) :=
  t.filterMap fun e => match e with
    | .exec prog args => if prog = "patch" then some args else none
    | _ => none

/-- Lines written to standard output, in order. -/
def printed (t : List Event) : List String :=
  t.filterMap fun e => match e with
    | .println l => some l
    | _ => none

/-- The mount point a handle answers with (empty when `Mount` fails). -/
def mountPointOf (c : Container) : String :=
  match c.mountResult with
  | .ok m => m
  | .error _ => ""

/-- Does the process end with a non-zero status?  An error returned by the
command action and a run-time fault both end the process with a non-zero
status; `os.Exit` gives its argument. -/
def nonZeroExit (f : Flow (Option String)) : Bool :=
  match f with
  | .ret none => false
  | .ret (some _) => true
  | .exit c => decide (c ≠ 0)
  | .fault _ => true

/-- The names resolve to the handles, position by position. -/
def Resolves (rt : Runtime) (names : List String) (ctrs : List Container) : Prop :=
  List.Forall₂ (fun n c => rt.lookup n = .ok c) names ctrs

/-- The path `applyPatch` works on for a handle: `dst` joined to its mount point. -/
def destOf (dst : String) (c : Container) : String :=
  filepath.Join (mountPointOf c) dst

/-- The destination of the handle is not reported missing by `os.Stat`. -/
def destPresent (host : Host) (dst : String) (c : Container) : Bool :=
  decide (host.stat (destOf dst c) ≠ StatResult.notExist)

/-- A handle whose `Mount` answers with the mount point `/mnt/<name>`. -/
def mountable (name : String) : Container :=
  ⟨name, .ok ("/mnt/" ++ name)⟩

/-- A handle whose `Mount` fails. -/
def unmountable (name : String) : Container :=
  ⟨name, .error "error mounting storage"⟩

/-- A runtime that knows every name except `ghost`; the container `broken`
cannot be mounted. -/
def demoRuntime : Runtime where
  lookup := fun n =>
    if n = "ghost" then .error "no such container"
    else if n = "broken" then .ok (unmountable n)
    else .ok (mountable n)
  running := .ok []

/-- A host with the `patch` tool on which `etc/app.conf` is missing in the
container `c2`, cannot be examined in the container `locked`, and on which
patching it fails in the container `stale`. -/
def demoHost : Host where
  stat := fun p =>
    if p = "/mnt/c2/etc/app.conf" then .notExist
    else if p = "/mnt/locked/etc/app.conf" then .otherError "permission denied"
    else .ok
  whichPatch := true
  run := fun _ args =>
    if args = ["/mnt/stale/etc/app.conf", "fix.patch"] then
      ⟨some "exit status 1", "1 out of 1 hunk FAILED"⟩
    else ⟨none, ""⟩

/-- A host like `demoHost` on which `which patch` fails. -/
def hostWithoutPatch : Host where
  stat := demoHost.stat
  whichPatch := false
  run := demoHost.run

/-- The command line `patch etc/app.conf fix.patch c1 c2`, run as root. -/
def demoInvocation : Invocation where
  args := ["etc/app.conf", "fix.patch", "c1", "c2"]
  all := false
  ignoreFail := false
  euid := 0
  getRuntime := .ok demoRuntime
  graphDriverName := some "overlay"
  becomeRoot := .ok (false, 0)

/-- The command line `patch etc/app.conf fix.patch`: no container, no `--all`. -/
def twoArgInvocation : Invocation where
  args := ["etc/app.conf", "fix.patch"]
  all := false
  ignoreFail := false
  euid := 0
  getRuntime := .ok demoRuntime
  graphDriverName := some "overlay"
  becomeRoot := .ok (false, 0)

/-- The command line `patch` without any argument and without `--all`. -/
def noArgInvocation : Invocation where
  args := []
  all := false
  ignoreFail := false
  euid := 0
  getRuntime := .ok demoRuntime
  graphDriverName := some "overlay"
  becomeRoot := .ok (false, 0)

/-- The command line `patch --all etc/app.conf`. -/
def allOneArgInvocation : Invocation where
  args := ["etc/app.conf"]
  all := true
  ignoreFail := false
  euid := 0
  getRuntime := .ok demoRuntime
  graphDriverName := some "overlay"
  becomeRoot := .ok (false, 0)

end Patch

/-! ## Properties of the path functions -/

namespace filepath

theorem splitSlash_ne_nil (l : List Char) : splitSlash l ≠ [] := by
  cases l with
  | nil => simp [splitSlash]
  | cons c cs =>
    unfold splitSlash
    split
    · simp
    · split <;> simp

theorem splitSlash_cons (c : Char) (cs : List Char) :
    splitSlash (c :: cs) =
      if c = '/' then [] :: splitSlash cs
      else match splitSlash cs with
        | [] => [[c]]
        | e :: es => (c :: e) :: es := by
  rw [splitSlash]

theorem splitSlash_append_slash (a b : List Char) :
    splitSlash (a ++ '/' :: b) = splitSlash a ++ splitSlash b := by
  induction a with
  | nil => simp [splitSlash]
  | cons c cs ih =>
    by_cases hc : c = '/'
    · simp [splitSlash, hc, ih]
    · rw [List.cons_append, splitSlash_cons, splitSlash_cons, ih]
      simp only [hc, if_false]
      cases hs : splitSlash cs with
      | nil => exact absurd hs (splitSlash_ne_nil cs)
      | cons e es => simp

theorem splitSlash_no_slash (l : List Char) : ∀ e ∈ splitSlash l, '/' ∉ e := by
  induction l with
  | nil => simp [splitSlash]
  | cons c cs ih =>
    by_cases hc : c = '/'
    · simp only [splitSlash, hc, if_true]
      intro e he
      rcases List.mem_cons.mp he with rfl | he
      · simp
      · exact ih e he
    · simp only [splitSlash, hc, if_false]
      cases hs : splitSlash cs with
      | nil => exact absurd hs (splitSlash_ne_nil cs)
      | cons e es =>
        rw [hs] at ih
        intro x hx
        rcases List.mem_cons.mp hx with rfl | hx
        · intro hmem
          rcases List.mem_cons.mp hmem with h | h
          · exact hc h.symm
          · exact ih e (List.mem_cons_self _ _) h
        · exact ih x (List.mem_cons_of_mem _ hx)

theorem splitSlash_of_no_slash (e : List Char) (h : '/' ∉ e) : splitSlash e = [e] := by
  induction e with
  | nil => rfl
  | cons c cs ih =>
    have hc : c ≠ '/' := fun hc => h (by simp [hc])
    have hcs : '/' ∉ cs := fun hm => h (List.mem_cons_of_mem _ hm)
    simp [splitSlash, hc, ih hcs]

theorem intercalate_cons_cons (x y : List Char) (ys : List (List Char)) :
    List.intercalate ['/'] (x :: y :: ys) = x ++ '/' :: List.intercalate ['/'] (y :: ys) := by
  simp [List.intercalate, List.intersperse]

theorem splitSlash_intercalate (l : List (List Char)) (hne : l ≠ [])
    (h : ∀ e ∈ l, '/' ∉ e) : splitSlash (List.intercalate ['/'] l) = l := by
  induction l with
  | nil => exact absurd rfl hne
  | cons x xs ih =>
    cases xs with
    | nil =>
      have : List.intercalate ['/'] [x] = x := by simp [List.intercalate, List.intersperse]
      rw [this]
      exact splitSlash_of_no_slash x (h x (List.mem_cons_self _ _))
    | cons y ys =>
      rw [intercalate_cons_cons, splitSlash_append_slash,
        splitSlash_of_no_slash x (h x (List.mem_cons_self _ _)),
        ih (by simp) (fun e he => h e (List.mem_cons_of_mem _ he))]
      rfl

theorem goodElem_dotdot : GoodElem dotdot := by
  constructor <;> decide

theorem cleanStep_good (rooted : Bool) (stack : List (List Char)) (e : List Char)
    (hs : ∀ x ∈ stack, GoodElem x) (he : '/' ∉ e) :
    ∀ x ∈ cleanStep rooted stack e, GoodElem x := by
  unfold cleanStep
  split
  · exact hs
  · split
    · exact hs
    · split
      · cases stack with
        | nil =>
          cases rooted
          · intro x hx
            simp only [Bool.false_eq_true, if_false, List.mem_singleton] at hx
            subst hx
            exact goodElem_dotdot
          · intro x hx
            simp at hx
        | cons top rest =>
          have hrest : ∀ x ∈ rest, GoodElem x := fun x hx => hs x (List.mem_cons_of_mem _ hx)
          cases rooted
          · simp only [Bool.false_eq_true, if_false]
            split
            · intro x hx
              rcases List.mem_cons.mp hx with rfl | hx
              · exact goodElem_dotdot
              · exact hs x hx
            · exact hrest
          · simpa using hrest
      · rename_i h1 h2 _
        intro x hx
        rcases List.mem_cons.mp hx with rfl | hx
        · exact ⟨by simp [named, h1, h2], he⟩
        · exact hs x hx

theorem foldl_cleanStep_good (rooted : Bool) (l stack : List (List Char))
    (hs : ∀ x ∈ stack, GoodElem x) (hl : ∀ e ∈ l, '/' ∉ e) :
    ∀ x ∈ l.foldl (cleanStep rooted) stack, GoodElem x := by
  induction l generalizing stack with
  | nil => exact hs
  | cons e es ih =>
    exact ih _ (cleanStep_good rooted stack e hs (hl e (List.mem_cons_self _ _)))
      (fun x hx => hl x (List.mem_cons_of_mem _ hx))

theorem cleanElems_good (rooted : Bool) (path : List Char) :
    ∀ x ∈ cleanElems rooted path, GoodElem x := by
  intro x hx
  unfold cleanElems at hx
  rw [List.mem_reverse] at hx
  exact foldl_cleanStep_good rooted _ [] (by simp) (splitSlash_no_slash path) x hx

/-- Elements without `..` are only appended: nothing already written is removed. -/
theorem foldl_cleanStep_no_dotdot (rooted : Bool) (l stack : List (List Char))
    (h : dotdot ∉ l) :
    l.foldl (cleanStep rooted) stack = (l.filter named).reverse ++ stack := by
  induction l generalizing stack with
  | nil => rfl
  | cons e es ih =>
    have he : e ≠ dotdot := fun hd => h (by simp [hd])
    have hes : dotdot ∉ es := fun hm => h (List.mem_cons_of_mem _ hm)
    rw [List.foldl_cons, ih _ hes]
    by_cases h1 : e = []
    · simp [cleanStep, h1, named]
    · by_cases h2 : e = ['.']
      · simp [cleanStep, h2, named]
      · have hn : named e = true := by simp [named, h1, h2]
        simp [cleanStep, h1, h2, he, List.filter_cons, hn]

theorem pathElems_render (rooted : Bool) (l : List (List Char))
    (h : ∀ e ∈ l, GoodElem e) : (splitSlash (render rooted l)).filter named = l := by
  have hfilter : l.filter named = l := by
    rw [List.filter_eq_self]
    exact fun e he => (h e he).1
  cases l with
  | nil =>
    cases rooted <;> decide
  | cons x xs =>
    have hsplit := splitSlash_intercalate (x :: xs) (by simp) (fun e he => (h e he).2)
    have hx : x ≠ [] := by
      have := (h x (List.mem_cons_self _ _)).1
      intro hx
      rw [hx] at this
      exact absurd this (by decide)
    have hbody : List.intercalate ['/'] (x :: xs) ≠ [] := by
      intro hb
      rw [hb] at hsplit
      have : [([] : List Char)] = x :: xs := hsplit
      injection this with h1 _
      exact hx h1.symm
    cases rooted
    · simp only [render, Bool.false_eq_true, if_false, hbody]
      rw [hsplit, hfilter]
    · simp only [render, if_true]
      rw [if_neg (by simp), splitSlash_cons, if_pos rfl, hsplit, List.filter_cons]
      simp only [named]
      simpa [named] using hfilter

theorem isRooted_render (rooted : Bool) (l : List (List Char))
    (h : ∀ e ∈ l, GoodElem e) : isRooted (render rooted l) = rooted := by
  cases rooted
  · cases l with
    | nil => decide
    | cons x xs =>
      have hg := h x (List.mem_cons_self _ _)
      cases x with
      | nil => exact absurd hg.1 (by decide)
      | cons c cs =>
        have hc : c ≠ '/' := fun hc => hg.2 (by simp [hc])
        cases xs with
        | nil => simp [render, List.intercalate, List.intersperse, isRooted, hc]
        | cons y ys => simp [render, intercalate_cons_cons, isRooted, hc]
  · simp [render, isRooted]

theorem data_ne_nil_of_ne_empty (s : String) (h : s ≠ "") : s.data ≠ [] := by
  intro hd
  apply h
  cases s
  simp_all

theorem isRooted_append (a b : List Char) (h : a ≠ []) : isRooted (a ++ b) = isRooted a := by
  cases a with
  | nil => exact absurd rfl h
  | cons c cs => rfl

theorem Clean_of_ne_empty (p : String) (h : p ≠ "") :
    Clean p = String.mk (render (isRooted p.data) (cleanElems (isRooted p.data) p.data)) := by
  simp [Clean, h]

theorem pathElems_Clean (p : String) (h : p ≠ "") :
    pathElems (Clean p) = cleanElems (isRooted p.data) p.data := by
  rw [Clean_of_ne_empty p h]
  exact pathElems_render _ _ (cleanElems_good _ _)

theorem isRooted_Clean (p : String) (h : p ≠ "") :
    isRooted (Clean p).data = isRooted p.data := by
  rw [Clean_of_ne_empty p h]
  exact isRooted_render _ _ (cleanElems_good _ _)

/-- Joining onto a non-empty directory a path without `..` elements stays
under the directory: the elements of the result are those of the cleaned
directory followed by the named elements of the path. -/
theorem Join_liesUnder (dir dst : String) (hne : dir ≠ "")
    (hdd : dotdot ∉ splitSlash dst.data) : liesUnder dir (Join dir dst) := by
  have hd := data_ne_nil_of_ne_empty dir hne
  have hdata : (dir ++ "/" ++ dst).data = dir.data ++ '/' :: dst.data := by
    simp [String.data_append]
  have hfull : dir ++ "/" ++ dst ≠ "" := by
    intro hf
    have := congrArg String.data hf
    rw [hdata] at this
    simp at this
  have hroot : isRooted (dir ++ "/" ++ dst).data = isRooted dir.data := by
    rw [hdata]
    exact isRooted_append _ _ hd
  have hjoin : Join dir dst = Clean (dir ++ "/" ++ dst) := by simp [Join, hne]
  constructor
  · rw [hjoin, isRooted_Clean _ hfull, hroot]
  · rw [hjoin, pathElems_Clean _ hfull, pathElems_Clean _ hne, hroot, hdata]
    unfold cleanElems
    rw [splitSlash_append_slash, List.foldl_append, foldl_cleanStep_no_dotdot _ _ _ hdd]
    simp

end filepath

/-! ## Properties of the command -/

namespace Patch

@[simp] theorem seq_ret {α β : Type} (t : List Event) (a : α) (k : α → List Event × Flow β) :
    seq (t, Flow.ret a) k = (t ++ (k a).1, (k a).2) := rfl

@[simp] theorem seq_exit {α β : Type} (t : List Event) (c : Int) (k : α → List Event × Flow β) :
    seq ((t, Flow.exit c) : List Event × Flow α) k = (t, Flow.exit c) := rfl

@[simp] theorem seq_fault {α β : Type} (t : List Event) (m : String) (k : α → List Event × Flow β) :
    seq ((t, Flow.fault m) : List Event × Flow α) k = (t, Flow.fault m) := rfl

theorem mountCalls_append (a b : List Event) : mountCalls (a ++ b) = mountCalls a ++ mountCalls b := by
  simp [mountCalls]

theorem unmountCalls_append (a b : List Event) :
    unmountCalls (a ++ b) = unmountCalls a ++ unmountCalls b := by
  simp [unmountCalls]

theorem lookupCalls_append (a b : List Event) :
    lookupCalls (a ++ b) = lookupCalls a ++ lookupCalls b := by
  simp [lookupCalls]

theorem statCalls_append (a b : List Event) : statCalls (a ++ b) = statCalls a ++ statCalls b := by
  simp [statCalls]

theorem patchCalls_append (a b : List Event) : patchCalls (a ++ b) = patchCalls a ++ patchCalls b := by
  simp [patchCalls]

theorem lookupCalls_lookups (names : List String) :
    lookupCalls (names.map Event.lookup) = names := by
  induction names with
  | nil => rfl
  | cons n ns ih =>
    have : lookupCalls (Event.lookup n :: ns.map Event.lookup)
        = n :: lookupCalls (ns.map Event.lookup) := rfl
    rw [List.map_cons, this, ih]

theorem mountsSucceeded_append (a b : List Event) :
    mountsSucceeded (a ++ b) = mountsSucceeded a + mountsSucceeded b := by
  simp [mountsSucceeded]

theorem mountsSucceeded_lookups (names : List String) :
    mountsSucceeded (names.map Event.lookup) = 0 := by
  induction names with
  | nil => rfl
  | cons n ns ih => simp [mountsSucceeded]

theorem mountCalls_lookups (names : List String) : mountCalls (names.map Event.lookup) = [] := by
  induction names with
  | nil => rfl
  | cons n ns ih => simp [mountCalls]

theorem unmountCalls_lookups (names : List String) : unmountCalls (names.map Event.lookup) = [] := by
  induction names with
  | nil => rfl
  | cons n ns ih => simp [unmountCalls]

theorem statCalls_lookups (names : List String) : statCalls (names.map Event.lookup) = [] := by
  induction names with
  | nil => rfl
  | cons n ns ih => simp [statCalls]

theorem patchCalls_lookups (names : List String) : patchCalls (names.map Event.lookup) = [] := by
  induction names with
  | nil => rfl
  | cons n ns ih => simp [patchCalls]

/-- When every name resolves, the first loop looks each name up and hands the
handles over, in order. -/
theorem lookupLoop_resolves (rt : Runtime) (names : List String) (ctrs acc : List Container)
    (h : Resolves rt names ctrs) :
    lookupLoop rt names acc = (names.map Event.lookup, Flow.ret (acc ++ ctrs)) := by
  induction h generalizing acc with
  | nil => simp [lookupLoop]
  | cons hn _ ih => simp [lookupLoop, hn, ih]

/-- A name that does not resolve ends the first loop with exit status 1, and
the loop only looks names up and prints. -/
theorem lookupLoop_unresolved (rt : Runtime) (names : List String) (acc : List Container)
    (h : ∃ n ∈ names, ∃ err, rt.lookup n = .error err) :
    ∃ t, lookupLoop rt names acc = (t, Flow.exit 1) ∧
      mountCalls t = [] ∧ patchCalls t = [] ∧ statCalls t = [] ∧ unmountCalls t = [] := by
  induction names generalizing acc with
  | nil => simp at h
  | cons n ns ih =>
    cases hl : rt.lookup n with
    | error err =>
      exact ⟨[Event.lookup n, Event.println err], by simp [lookupLoop, hl], rfl, rfl, rfl, rfl⟩
    | ok ctr =>
      have h2 : ∃ m ∈ ns, ∃ err, rt.lookup m = .error err := by
        obtain ⟨m, hm, err, he⟩ := h
        rcases List.mem_cons.mp hm with rfl | hm
        · rw [hl] at he; cases he
        · exact ⟨m, hm, err, he⟩
      obtain ⟨t, ht, h1, h2, h3, h4⟩ := ih (acc ++ [ctr]) h2
      refine ⟨Event.lookup n :: t, by simp [lookupLoop, hl, ht], ?_, ?_, ?_, ?_⟩
      · simpa [mountCalls] using h1
      · simpa [patchCalls] using h2
      · simpa [statCalls] using h3
      · simpa [unmountCalls] using h4

theorem exists_eq_true_of_ne_notExist (host : Host) (p : String)
    (h : host.stat p ≠ StatResult.notExist) : exists_ host p = true := by
  unfold exists_
  cases hs : host.stat p with
  | ok => rfl
  | notExist => exact absurd hs h
  | otherError msg => rfl

theorem exists_eq_false_of_notExist (host : Host) (p : String)
    (h : host.stat p = StatResult.notExist) : exists_ host p = false := by
  unfold exists_
  rw [h]

/-- Mount succeeded and the destination is not missing: the tool is run once on
the joined path and the container is unmounted, whatever the tool answers. -/
theorem applyPatch_present (host : Host) (patch dst : String) (c : Container) (ignore : Bool)
    (m : String) (hm : c.mountResult = .ok m)
    (hs : host.stat (filepath.Join m dst) ≠ StatResult.notExist) :
    ∃ t, applyPatch host patch dst c ignore = (t, Flow.ret ()) ∧
      mountCalls t = [c.name] ∧ statCalls t = [filepath.Join m dst] ∧
      patchCalls t = [[filepath.Join m dst, patch]] ∧ unmountCalls t = [c.name] ∧
      lookupCalls t = [] := by
  have hex := exists_eq_true_of_ne_notExist host _ hs
  unfold applyPatch
  simp only [hm, hex]
  cases (host.run "patch" [filepath.Join m dst, patch]).err with
  | none => exact ⟨_, rfl, by simp [mountCalls], by simp [statCalls], by simp [patchCalls],
      by simp [unmountCalls], by simp [lookupCalls]⟩
  | some e => exact ⟨_, rfl, by simp [mountCalls], by simp [statCalls], by simp [patchCalls],
      by simp [unmountCalls], by simp [lookupCalls]⟩

/-- Mount succeeded, the destination is missing and ignore-fail is on: the
container is skipped; the tool is not run and `Unmount` is not called. -/
theorem applyPatch_skip (host : Host) (patch dst : String) (c : Container)
    (m : String) (hm : c.mountResult = .ok m)
    (hs : host.stat (filepath.Join m dst) = StatResult.notExist) :
    ∃ t, applyPatch host patch dst c true = (t, Flow.ret ()) ∧
      mountCalls t = [c.name] ∧ statCalls t = [filepath.Join m dst] ∧
      patchCalls t = [] ∧ unmountCalls t = [] ∧ lookupCalls t = [] := by
  have hex := exists_eq_false_of_notExist host _ hs
  unfold applyPatch
  simp only [hm, hex]
  exact ⟨_, rfl, by simp [mountCalls], by simp [statCalls], by simp [patchCalls],
      by simp [unmountCalls], by simp [lookupCalls]⟩

/-- Mount succeeded, the destination is missing and ignore-fail is off: the
process exits with status 1 right after the check. -/
theorem applyPatch_missing (host : Host) (patch dst : String) (c : Container)
    (m : String) (hm : c.mountResult = .ok m)
    (hs : host.stat (filepath.Join m dst) = StatResult.notExist) :
    ∃ t, applyPatch host patch dst c false = (t, Flow.exit 1) ∧
      mountCalls t = [c.name] ∧ statCalls t = [filepath.Join m dst] ∧
      patchCalls t = [] ∧ unmountCalls t = [] ∧ lookupCalls t = [] := by
  have hex := exists_eq_false_of_notExist host _ hs
  unfold applyPatch
  simp only [hm, hex]
  exact ⟨_, rfl, by simp [mountCalls], by simp [statCalls], by simp [patchCalls],
      by simp [unmountCalls], by simp [lookupCalls]⟩

/-- Mount failed: the error is printed and the process exits with status 1. -/
theorem applyPatch_mount_error (host : Host) (patch dst : String) (c : Container)
    (ignore : Bool) (err : String) (hm : c.mountResult = .error err) :
    applyPatch host patch dst c ignore =
      ([Event.println ("Patching:  " ++ c.name), Event.mount c.name false, Event.println err],
        Flow.exit 1) := by
  unfold applyPatch
  simp [hm]

theorem seq_assoc {α β γ : Type} (r : List Event × Flow α) (k : α → List Event × Flow β)
    (k2 : β → List Event × Flow γ) :
    seq (seq r k) k2 = seq r (fun a => seq (k a) k2) := by
  rcases r with ⟨t, f⟩
  cases f with
  | ret a =>
    rcases hk : k a with ⟨t1, f1⟩
    cases f1 <;> simp [hk]
  | exit code => rfl
  | fault msg => rfl

theorem applyLoop_append (host : Host) (patch dst : String) (ignore : Bool)
    (a b : List Container) :
    applyLoop host patch dst ignore (a ++ b) =
      seq (applyLoop host patch dst ignore a) (fun _ => applyLoop host patch dst ignore b) := by
  induction a with
  | nil => simp [applyLoop]
  | cons c cs ih =>
    show seq (applyPatch host patch dst c ignore)
        (fun _ => applyLoop host patch dst ignore (cs ++ b)) = _
    rw [ih]
    simp only [applyLoop, seq_assoc]

/-- A run of the second loop over handles that all mount, none of which stops
the process at a missing destination: every handle is mounted and checked in
order, the tool runs exactly for the handles whose destination is present, and
exactly those are unmounted. -/
theorem applyLoop_completes (host : Host) (patch dst : String) (ignore : Bool)
    (cs : List Container)
    (h : ∀ c ∈ cs, ∃ m, c.mountResult = .ok m ∧
      (host.stat (filepath.Join m dst) = StatResult.notExist → ignore = true)) :
    ∃ t, applyLoop host patch dst ignore cs = (t, Flow.ret ()) ∧
      mountCalls t = cs.map (fun c => c.name) ∧
      statCalls t = cs.map (destOf dst) ∧
      patchCalls t = (cs.filter (destPresent host dst)).map (fun c => [destOf dst c, patch]) ∧
      unmountCalls t = (cs.filter (destPresent host dst)).map (fun c => c.name) ∧
      lookupCalls t = [] := by
  induction cs with
  | nil => exact ⟨[], rfl, rfl, rfl, rfl, rfl, rfl⟩
  | cons c cs ih =>
    obtain ⟨t2, ht2, a2, b2, c2, d2, e2⟩ := ih (fun x hx => h x (List.mem_cons_of_mem _ hx))
    obtain ⟨m, hm, hi⟩ := h c (List.mem_cons_self _ _)
    have hd : destOf dst c = filepath.Join m dst := by simp [destOf, mountPointOf, hm]
    by_cases hs : host.stat (filepath.Join m dst) = StatResult.notExist
    · have hig := hi hs
      subst hig
      obtain ⟨t1, ht1, a1, b1, c1, d1, e1⟩ := applyPatch_skip host patch dst c m hm hs
      have hp : destPresent host dst c = false := by simp [destPresent, hd, hs]
      refine ⟨t1 ++ t2, by simp [applyLoop, ht1, ht2], ?_, ?_, ?_, ?_, ?_⟩
      · simp [mountCalls_append, a1, a2]
      · simp [statCalls_append, b1, b2, hd]
      · simp [patchCalls_append, c1, c2, hp]
      · simp [unmountCalls_append, d1, d2, hp]
      · simp [lookupCalls_append, e1, e2]
    · obtain ⟨t1, ht1, a1, b1, c1, d1, e1⟩ := applyPatch_present host patch dst c ignore m hm hs
      have hp : destPresent host dst c = true := by simp [destPresent, hd, hs]
      refine ⟨t1 ++ t2, by simp [applyLoop, ht1, ht2], ?_, ?_, ?_, ?_, ?_⟩
      · simp [mountCalls_append, a1, a2]
      · simp [statCalls_append, b1, b2, hd]
      · simp [patchCalls_append, c1, c2, hp, hd]
      · simp [unmountCalls_append, d1, d2, hp]
      · simp [lookupCalls_append, e1, e2]

/-- When every name resolves, `patchContainers` is the lookups followed by the
second loop over the handles. -/
theorem patchContainers_resolved (rt : Runtime) (host : Host) (patch dst : String)
    (names : List String) (ctrs : List Container) (ignore : Bool)
    (h : Resolves rt names ctrs) :
    patchContainers rt host patch dst names ignore =
      seq (names.map Event.lookup, Flow.ret ())
        (fun _ => seq (applyLoop host patch dst ignore ctrs) (fun _ => ([], Flow.ret none))) := by
  unfold patchContainers
  rw [lookupLoop_resolves rt names ctrs [] h]
  simp

/-- C3. With ignore-fail off, when every name resolves, the containers before
Ck mount and have their destination, and Ck mounts but its destination does not
exist, the run exits with status 1 at Ck: exactly the containers up to Ck were
mounted and checked, the patch tool ran exactly for the containers before Ck
(not for Ck, not for any later one), and those were unmounted. -/
theorem missing_destination_stops_batch (rt : Runtime) (host : Host) (patch dst : String)
    (names : List String) (pre : List Container) (ck : Container) (post : List Container)
    (mp : String)
    (hres : Resolves rt names (pre ++ ck :: post))
    (hpre : ∀ c ∈ pre, ∃ m, c.mountResult = .ok m ∧
      host.stat (filepath.Join m dst) ≠ StatResult.notExist)
    (hmount : ck.mountResult = .ok mp)
    (hmiss : host.stat (filepath.Join mp dst) = StatResult.notExist) :
    ∃ t, patchContainers rt host patch dst names false = (t, Flow.exit 1) ∧
      mountCalls t = (pre ++ [ck]).map (fun c => c.name) ∧
      statCalls t = (pre ++ [ck]).map (destOf dst) ∧
      patchCalls t = pre.map (fun c => [destOf dst c, patch]) ∧
      unmountCalls t = pre.map (fun c => c.name) := by
  obtain ⟨t0, ht0, a0, b0, c0, d0, -⟩ := applyLoop_completes host patch dst false pre
    (fun c hc => by
      obtain ⟨m, hm, hs⟩ := hpre c hc
      exact ⟨m, hm, fun h => absurd h hs⟩)
  obtain ⟨t1, ht1, a1, b1, c1, d1, -⟩ := applyPatch_missing host patch dst ck mp hmount hmiss
  have hall : pre.filter (destPresent host dst) = pre := by
    rw [List.filter_eq_self]
    intro c hc
    obtain ⟨m, hm, hs⟩ := hpre c hc
    simp [destPresent, destOf, mountPointOf, hm, hs]
  have hd : destOf dst ck = filepath.Join mp dst := by simp [destOf, mountPointOf, hmount]
  refine ⟨names.map Event.lookup ++ (t0 ++ t1), ?_, ?_, ?_, ?_, ?_⟩
  · rw [patchContainers_resolved rt host patch dst names _ false hres, applyLoop_append]
    simp [applyLoop, ht0, ht1]
  · simp [mountCalls_append, mountCalls_lookups, a0, a1]
  · simp [statCalls_append, statCalls_lookups, b0, b1, hd]
  · simp [patchCalls_append, patchCalls_lookups, c0, c1, hall]
  · simp [unmountCalls_append, unmountCalls_lookups, d0, d1, hall]

/-- Witness for C3: C1 has the destination, C2 misses it, C3 has it; the run
exits with status 1 and C3 is never mounted. -/
theorem missing_destination_stops_batch_witness :
    (patchContainers demoRuntime demoHost "fix.patch" "etc/app.conf" ["c1", "c2", "c3"] false).2
        = Flow.exit 1 ∧
      mountCalls (patchContainers demoRuntime demoHost "fix.patch" "etc/app.conf"
        ["c1", "c2", "c3"] false).1 = ["c1", "c2"] ∧
      patchCalls (patchContainers demoRuntime demoHost "fix.patch" "etc/app.conf"
        ["c1", "c2", "c3"] false).1 = [["/mnt/c1/etc/app.conf", "fix.patch"]] := by
  obtain ⟨t, ht, hm, _, hp, _⟩ :=
    missing_destination_stops_batch demoRuntime demoHost "fix.patch" "etc/app.conf"
      ["c1", "c2", "c3"] [mountable "c1"] (mountable "c2") [mountable "c3"] "/mnt/c2"
      (List.Forall₂.cons rfl (List.Forall₂.cons rfl (List.Forall₂.cons rfl List.Forall₂.nil)))
      (fun c hc => by
        rw [List.mem_singleton] at hc
        subst hc
        exact ⟨"/mnt/c1", rfl, by decide⟩)
      rfl (by decide)
  rw [ht]
  exact ⟨rfl, hm, hp⟩

/-- C4. With ignore-fail on, when every name resolves and every container
mounts, the run returns nil: every container is mounted and checked, in request
order, and the patch tool runs exactly once, in order, for exactly the
containers whose destination is not missing. -/
theorem ignore_fail_skips_only_missing (rt : Runtime) (host : Host) (patch dst : String)
    (names : List String) (ctrs : List Container)
    (hres : Resolves rt names ctrs)
    (hmount : ∀ c ∈ ctrs, ∃ m, c.mountResult = .ok m) :
    ∃ t, patchContainers rt host patch dst names true = (t, Flow.ret none) ∧
      lookupCalls t = names ∧
      mountCalls t = ctrs.map (fun c => c.name) ∧
      statCalls t = ctrs.map (destOf dst) ∧
      patchCalls t = (ctrs.filter (fun c =>
          decide (host.stat (destOf dst c) ≠ StatResult.notExist))).map
        (fun c => [destOf dst c, patch]) := by
  obtain ⟨t0, ht0, a0, b0, c0, _, hl⟩ := applyLoop_completes host patch dst true ctrs
    (fun c hc => by
      obtain ⟨m, hm⟩ := hmount c hc
      exact ⟨m, hm, fun _ => rfl⟩)
  refine ⟨names.map Event.lookup ++ t0, ?_, ?_, ?_, ?_, ?_⟩
  · rw [patchContainers_resolved rt host patch dst names ctrs true hres]
    simp [ht0]
  · simp [lookupCalls_append, hl, lookupCalls_lookups]
  · simp [mountCalls_append, mountCalls_lookups, a0]
  · simp [statCalls_append, statCalls_lookups, b0]
  · simp only [patchCalls_append, patchCalls_lookups, c0, List.nil_append]
    rfl

/-- Witness for C4: C1 and C3 have the destination, C2 misses it; all three are
mounted in order, the tool runs for C1 and C3 only, and the run returns nil. -/
theorem ignore_fail_skips_only_missing_witness :
    (patchContainers demoRuntime demoHost "fix.patch" "etc/app.conf" ["c1", "c2", "c3"] true).2
        = Flow.ret none ∧
      mountCalls (patchContainers demoRuntime demoHost "fix.patch" "etc/app.conf"
        ["c1", "c2", "c3"] true).1 = ["c1", "c2", "c3"] ∧
      patchCalls (patchContainers demoRuntime demoHost "fix.patch" "etc/app.conf"
        ["c1", "c2", "c3"] true).1
        = [["/mnt/c1/etc/app.conf", "fix.patch"], ["/mnt/c3/etc/app.conf", "fix.patch"]] := by
  obtain ⟨t, ht, _, hm, _, hp⟩ :=
    ignore_fail_skips_only_missing demoRuntime demoHost "fix.patch" "etc/app.conf"
      ["c1", "c2", "c3"] [mountable "c1", mountable "c2", mountable "c3"]
      (List.Forall₂.cons rfl (List.Forall₂.cons rfl (List.Forall₂.cons rfl List.Forall₂.nil)))
      (fun c hc => by
        simp only [List.mem_cons, List.mem_singleton, List.not_mem_nil, or_false] at hc
        rcases hc with rfl | rfl | rfl
        · exact ⟨"/mnt/c1", rfl⟩
        · exact ⟨"/mnt/c2", rfl⟩
        · exact ⟨"/mnt/c3", rfl⟩)
  rw [ht]
  exact ⟨rfl, hm, hp⟩

/-- C6. When every name resolves, no container before Ck stops the run (each
mounts, and a missing destination among them is ignored), and the `Mount` of Ck
fails, the run exits with status 1 at Ck.  Compared with the run of the batch
made of the earlier containers alone, which returns nil, it adds one failed
`Mount` call on Ck and nothing else: no existence check, no patch invocation,
no unmount, and no mount of a later container. -/
theorem mount_failure_stops_batch (rt : Runtime) (host : Host) (patch dst : String)
    (ignore : Bool) (npre : List String) (nk : String) (npost : List String)
    (pre : List Container) (ck : Container) (post : List Container) (err : String)
    (hpre : Resolves rt npre pre) (hk : rt.lookup nk = .ok ck) (hpost : Resolves rt npost post)
    (hreach : ∀ c ∈ pre, ∃ m, c.mountResult = .ok m ∧
      (host.stat (filepath.Join m dst) = StatResult.notExist → ignore = true))
    (hfail : ck.mountResult = .error err) :
    ∃ t0 t, patchContainers rt host patch dst npre ignore = (t0, Flow.ret none) ∧
      patchContainers rt host patch dst (npre ++ nk :: npost) ignore = (t, Flow.exit 1) ∧
      mountCalls t0 = pre.map (fun c => c.name) ∧
      mountCalls t = mountCalls t0 ++ [ck.name] ∧
      mountsSucceeded t = mountsSucceeded t0 ∧
      statCalls t = statCalls t0 ∧
      patchCalls t = patchCalls t0 ∧
      unmountCalls t = unmountCalls t0 := by
  obtain ⟨u, hu, a0, -⟩ := applyLoop_completes host patch dst ignore pre hreach
  have hall : Resolves rt (npre ++ nk :: npost) (pre ++ ck :: post) :=
    List.rel_append hpre (List.Forall₂.cons hk hpost)
  have hck := applyPatch_mount_error host patch dst ck ignore err hfail
  refine ⟨npre.map Event.lookup ++ u,
    (npre ++ nk :: npost).map Event.lookup ++ (u ++
      [Event.println ("Patching:  " ++ ck.name), Event.mount ck.name false, Event.println err]),
    ?_, ?_, ?_, ?_, ?_, ?_, ?_, ?_⟩
  · rw [patchContainers_resolved rt host patch dst npre pre ignore hpre]
    simp [hu]
  · rw [patchContainers_resolved rt host patch dst _ _ ignore hall, applyLoop_append]
    simp [applyLoop, hu, hck]
  · simp [mountCalls_append, mountCalls_lookups, a0]
  · simp only [mountCalls_append, mountCalls_lookups, List.nil_append]
    rfl
  · simp only [mountsSucceeded_append, mountsSucceeded_lookups, Nat.zero_add]
    rfl
  · simp only [statCalls_append, statCalls_lookups, List.nil_append]
    exact List.append_nil _
  · simp only [patchCalls_append, patchCalls_lookups, List.nil_append]
    exact List.append_nil _
  · simp only [unmountCalls_append, unmountCalls_lookups, List.nil_append]
    exact List.append_nil _

/-- Witness for C6: C1 is patched, the mount of `broken` fails, C3 is never
mounted. -/
theorem mount_failure_stops_batch_witness :
    (patchContainers demoRuntime demoHost "fix.patch" "etc/app.conf"
        ["c1", "broken", "c3"] false).2 = Flow.exit 1 ∧
      mountCalls (patchContainers demoRuntime demoHost "fix.patch" "etc/app.conf"
        ["c1", "broken", "c3"] false).1 = ["c1", "broken"] ∧
      statCalls (patchContainers demoRuntime demoHost "fix.patch" "etc/app.conf"
        ["c1", "broken", "c3"] false).1 = ["/mnt/c1/etc/app.conf"] ∧
      patchCalls (patchContainers demoRuntime demoHost "fix.patch" "etc/app.conf"
        ["c1", "broken", "c3"] false).1 = [["/mnt/c1/etc/app.conf", "fix.patch"]] := by
  obtain ⟨t0, t, h0, ht, _, hm, _, hs, hp, _⟩ :=
    mount_failure_stops_batch demoRuntime demoHost "fix.patch" "etc/app.conf" false
      ["c1"] "broken" ["c3"] [mountable "c1"] (unmountable "broken") [mountable "c3"]
      "error mounting storage"
      (List.Forall₂.cons rfl List.Forall₂.nil) rfl (List.Forall₂.cons rfl List.Forall₂.nil)
      (fun c hc => by
        rw [List.mem_singleton] at hc
        subst hc
        exact ⟨"/mnt/c1", rfl, by decide⟩)
      rfl
  have e0 : t0 = (patchContainers demoRuntime demoHost "fix.patch" "etc/app.conf"
      ["c1"] false).1 := by rw [h0]
  have e1 : (patchContainers demoRuntime demoHost "fix.patch" "etc/app.conf"
      (["c1"] ++ "broken" :: ["c3"]) false) = (t, Flow.exit 1) := ht
  have e2 : (patchContainers demoRuntime demoHost "fix.patch" "etc/app.conf"
      ["c1", "broken", "c3"] false) = (t, Flow.exit 1) := e1
  rw [e2]
  refine ⟨rfl, ?_, ?_, ?_⟩
  · rw [hm, e0]; decide
  · rw [hs, e0]; decide
  · rw [hp, e0]; decide

/-- C8. When some name of the list does not resolve, wherever it stands,
`patchContainers` exits with status 1 without any `Mount` call, existence check,
patch invocation or unmount. -/
theorem unresolved_name_stops_before_mount (rt : Runtime) (host : Host) (patch dst : String)
    (names : List String) (ignore : Bool)
    (h : ∃ n ∈ names, ∃ err, rt.lookup n = .error err) :
    ∃ t, patchContainers rt host patch dst names ignore = (t, Flow.exit 1) ∧
      mountCalls t = [] ∧ patchCalls t = [] ∧ statCalls t = [] ∧ unmountCalls t = [] := by
  obtain ⟨t, ht, h1, h2, h3, h4⟩ := lookupLoop_unresolved rt names [] h
  exact ⟨t, by simp [patchContainers, ht], h1, h2, h3, h4⟩

/-- Witness for C8: the unknown name comes last; nothing is mounted. -/
theorem unresolved_name_stops_before_mount_witness :
    (patchContainers demoRuntime demoHost "fix.patch" "etc/app.conf"
        ["c1", "c3", "ghost"] true).2 = Flow.exit 1 ∧
      mountCalls (patchContainers demoRuntime demoHost "fix.patch" "etc/app.conf"
        ["c1", "c3", "ghost"] true).1 = [] ∧
      patchCalls (patchContainers demoRuntime demoHost "fix.patch" "etc/app.conf"
        ["c1", "c3", "ghost"] true).1 = [] := by
  obtain ⟨t, ht, hm, hp, _⟩ :=
    unresolved_name_stops_before_mount demoRuntime demoHost "fix.patch" "etc/app.conf"
      ["c1", "c3", "ghost"] true ⟨"ghost", by decide, "no such container", rfl⟩
  rw [ht]
  exact ⟨rfl, hm, hp⟩

/-- C7. When the patch tool is not found on the host, `patchCmd` never calls
`Mount`, `LookupContainer`, the patch tool or `Unmount`, whatever the arguments
and the containers, and it never returns nil; the process ends with a non-zero
status (when a rootless process hands over to its re-executed copy, the status
is that of the copy). -/
theorem no_patch_tool_no_mount (inv : Invocation) (host : Host)
    (h : canPatch host = false) :
    mountCalls (patchCmd inv host).1 = [] ∧
      lookupCalls (patchCmd inv host).1 = [] ∧
      patchCalls (patchCmd inv host).1 = [] ∧
      unmountCalls (patchCmd inv host).1 = [] ∧
      (patchCmd inv host).2 ≠ Flow.ret none ∧
      ((∀ ret, inv.euid ≠ 0 → inv.becomeRoot = .ok (true, ret) → ret ≠ 0) →
        nonZeroExit (patchCmd inv host).2 = true) := by
  have body : mountCalls (patchCmdBody inv host).1 = [] ∧
      lookupCalls (patchCmdBody inv host).1 = [] ∧
      patchCalls (patchCmdBody inv host).1 = [] ∧
      unmountCalls (patchCmdBody inv host).1 = [] ∧
      (patchCmdBody inv host).2 ≠ Flow.ret none ∧
      nonZeroExit (patchCmdBody inv host).2 = true := by
    unfold patchCmdBody
    cases inv.getRuntime with
    | error err => simp [mountCalls, lookupCalls, patchCalls, unmountCalls, nonZeroExit]
    | ok runtime =>
      simp only [h, if_true]
      rcases hargs : inv.args with _ | ⟨dst, _ | ⟨patch, rest⟩⟩
      · simp [deferShutdown, mountCalls, lookupCalls, patchCalls, unmountCalls, nonZeroExit]
      · simp [deferShutdown, mountCalls, lookupCalls, patchCalls, unmountCalls, nonZeroExit]
      · by_cases hall : inv.all = false
        · simp [hall, deferShutdown, mountCalls, lookupCalls, patchCalls, unmountCalls,
            nonZeroExit]
        · cases hr : runtime.running with
          | error err =>
            simp [hall, retrieveExisting, hr, deferShutdown, mountCalls, lookupCalls,
              patchCalls, unmountCalls, nonZeroExit]
          | ok pods =>
            simp [hall, retrieveExisting, hr, deferShutdown, mountCalls, lookupCalls,
              patchCalls, unmountCalls, nonZeroExit]
  obtain ⟨b1, b2, b3, b4, b5, b6⟩ := body
  unfold patchCmd
  cases hroot : rootlessSetup inv with
  | some stop =>
    refine ⟨rfl, rfl, rfl, rfl, ?_, ?_⟩
    · unfold rootlessSetup at hroot
      intro hstop
      simp only at hstop
      subst hstop
      split at hroot
      · split at hroot
        · cases hroot
        · split at hroot
          · cases hroot
          · split at hroot <;> cases hroot
      · cases hroot
    · intro hchild
      unfold rootlessSetup at hroot
      split at hroot
      · rename_i heuid
        split at hroot
        · cases hroot; rfl
        · split at hroot
          · cases hroot; rfl
          · rename_i became ret hb
            split at hroot
            · rename_i hbecame
              cases hroot
              subst hbecame
              simp [nonZeroExit, hchild ret heuid hb]
            · cases hroot
      · cases hroot
  | none =>
    simp only
    split
    · split
      · simp [mountCalls, lookupCalls, patchCalls, unmountCalls, nonZeroExit]
      · exact ⟨b1, b2, b3, b4, b5, fun _ => b6⟩
    · exact ⟨b1, b2, b3, b4, b5, fun _ => b6⟩

/-- Witness for C7: a full command line on a host without the patch tool. -/
theorem no_patch_tool_no_mount_witness :
    canPatch hostWithoutPatch = false ∧
      mountCalls (patchCmd demoInvocation hostWithoutPatch).1 = [] ∧
      (patchCmd demoInvocation hostWithoutPatch).2 = Flow.exit 1 ∧
      nonZeroExit (patchCmd demoInvocation hostWithoutPatch).2 = true :=
  ⟨rfl, (no_patch_tool_no_mount demoInvocation hostWithoutPatch rfl).1, by decide,
    (no_patch_tool_no_mount demoInvocation hostWithoutPatch rfl).2.2.2.2.2
      (fun _ h0 _ => absurd rfl h0)⟩

/-- C1 (fails on the code). A container whose destination is missing stays
mounted: with ignore-fail on the run over `c2` returns nil after one successful
`Mount` and no `Unmount`; with ignore-fail off it exits with status 1, again
after one successful `Mount` and no `Unmount`. -/
theorem skipped_container_stays_mounted :
    patchContainers demoRuntime demoHost "fix.patch" "etc/app.conf" ["c2"] true =
        ([Event.lookup "c2", Event.println "Patching:  c2", Event.mount "c2" true,
          Event.stat "/mnt/c2/etc/app.conf",
          Event.println "File to patch not found: etc/app.conf",
          Event.println "Skipping container: c2"], Flow.ret none) ∧
      mountsSucceeded (patchContainers demoRuntime demoHost "fix.patch" "etc/app.conf"
        ["c2"] true).1 = 1 ∧
      unmountCalls (patchContainers demoRuntime demoHost "fix.patch" "etc/app.conf"
        ["c2"] true).1 = [] ∧
      (patchContainers demoRuntime demoHost "fix.patch" "etc/app.conf" ["c2"] false).2
        = Flow.exit 1 ∧
      mountsSucceeded (patchContainers demoRuntime demoHost "fix.patch" "etc/app.conf"
        ["c2"] false).1 = 1 ∧
      unmountCalls (patchContainers demoRuntime demoHost "fix.patch" "etc/app.conf"
        ["c2"] false).1 = [] := by
  decide

/-- C2 (fails on the code). Without `--all`, two positional arguments pass the
argument check: the command goes on with an empty container list and returns
nil.  Without `--all` and without any argument the check passes too, and the
function faults when it reads its first argument. -/
theorem short_argument_list_not_rejected :
    patchCmd twoArgInvocation demoHost =
        ([Event.exec "which" ["patch"], Event.stat "fix.patch", Event.shutdown false],
          Flow.ret none) ∧
      patchCmd noArgInvocation demoHost =
        ([Event.shutdown false], Flow.fault "index out of range [0] with length 0") ∧
      patchCmd allOneArgInvocation demoHost =
        ([], Flow.ret (some "too few given arguments")) := by
  decide

/-- C5 (fails on the code). The patch tool fails on the container `stale`; the
error is printed, and then the same success line is printed as for a container
on which the tool succeeded. -/
theorem failed_patch_reported_as_success :
    (demoHost.run "patch" ["/mnt/stale/etc/app.conf", "fix.patch"]).err = some "exit status 1" ∧
      printed (patchContainers demoRuntime demoHost "fix.patch" "etc/app.conf"
        ["stale"] false).1 =
        ["Patching:  stale", "Execute: patch  /mnt/stale/etc/app.conf fix.patch",
          "exit status 1: 1 out of 1 hunk FAILED", "stale patched successfully!"] ∧
      (demoHost.run "patch" ["/mnt/c1/etc/app.conf", "fix.patch"]).err = none ∧
      printed (patchContainers demoRuntime demoHost "fix.patch" "etc/app.conf"
        ["c1"] false).1 =
        ["Patching:  c1", "Execute: patch  /mnt/c1/etc/app.conf fix.patch",
          "c1 patched successfully!"] := by
  decide

/-- The part of C5 that holds: a failure of the patch tool stops nothing.
When every name resolves, every container mounts and has its destination, the
run returns nil with every container mounted, patched and unmounted in order,
whatever the patch tool answers. -/
theorem patch_tool_failure_is_not_fatal (rt : Runtime) (host : Host) (patch dst : String)
    (names : List String) (ctrs : List Container) (ignore : Bool)
    (hres : Resolves rt names ctrs)
    (hok : ∀ c ∈ ctrs, ∃ m, c.mountResult = .ok m ∧
      host.stat (filepath.Join m dst) ≠ StatResult.notExist) :
    ∃ t, patchContainers rt host patch dst names ignore = (t, Flow.ret none) ∧
      mountCalls t = ctrs.map (fun c => c.name) ∧
      patchCalls t = ctrs.map (fun c => [destOf dst c, patch]) ∧
      unmountCalls t = ctrs.map (fun c => c.name) := by
  obtain ⟨t0, ht0, a0, _, c0, d0, -⟩ := applyLoop_completes host patch dst ignore ctrs
    (fun c hc => by
      obtain ⟨m, hm, hs⟩ := hok c hc
      exact ⟨m, hm, fun h => absurd h hs⟩)
  have hall : ctrs.filter (destPresent host dst) = ctrs := by
    rw [List.filter_eq_self]
    intro c hc
    obtain ⟨m, hm, hs⟩ := hok c hc
    simp [destPresent, destOf, mountPointOf, hm, hs]
  refine ⟨names.map Event.lookup ++ t0, ?_, ?_, ?_, ?_⟩
  · rw [patchContainers_resolved rt host patch dst names ctrs ignore hres]
    simp [ht0]
  · simp [mountCalls_append, mountCalls_lookups, a0]
  · simp [patchCalls_append, patchCalls_lookups, c0, hall]
  · simp [unmountCalls_append, unmountCalls_lookups, d0, hall]

/-- C9 (fails on the code). `os.Stat` fails with a permission error on the
destination in the container `locked`; `exists` answers true, and the path is
handed to the patch tool. -/
theorem exists_true_when_stat_fails :
    demoHost.stat "/mnt/locked/etc/app.conf" = StatResult.otherError "permission denied" ∧
      exists_ demoHost "/mnt/locked/etc/app.conf" = true ∧
      patchCalls (applyPatch demoHost "fix.patch" "etc/app.conf" (mountable "locked") false).1
        = [["/mnt/locked/etc/app.conf", "fix.patch"]] := by
  decide

/-- C10 (fails as stated). With `..` elements in DEST_FILE the path that
`applyPatch` checks and hands to the patch tool leaves the mount: for the mount
point `/mnt/c1` and the destination `../../etc/passwd` it is `/etc/passwd`. -/
theorem patch_target_leaves_mount :
    (mountable "c1").mountResult = .ok "/mnt/c1" ∧
      statCalls (applyPatch demoHost "fix.patch" "../../etc/passwd" (mountable "c1") false).1
        = ["/etc/passwd"] ∧
      patchCalls (applyPatch demoHost "fix.patch" "../../etc/passwd" (mountable "c1") false).1
        = [["/etc/passwd", "fix.patch"]] ∧
      ¬ filepath.liesUnder "/mnt/c1" "/etc/passwd" :=
  ⟨rfl, by decide⟩

/-- C10 (amended). For a non-empty mount point and a DEST_FILE without `..`
elements (a leading `/` is allowed), the path `filepath.Join(mountPoint, dst)`
lies under the mount point; it is the one path whose existence `applyPatch`
checks, and whenever the patch tool is invoked its arguments are that path
followed by the patch file path unchanged. -/
theorem patch_target_under_mount (host : Host) (patch dst : String) (c : Container)
    (ignore : Bool) (mp : String)
    (hm : c.mountResult = .ok mp) (hne : mp ≠ "")
    (hdd : filepath.dotdot ∉ filepath.splitSlash dst.data) :
    filepath.liesUnder mp (filepath.Join mp dst) ∧
      statCalls (applyPatch host patch dst c ignore).1 = [filepath.Join mp dst] ∧
      (∀ args ∈ patchCalls (applyPatch host patch dst c ignore).1,
        args = [filepath.Join mp dst, patch]) := by
  refine ⟨filepath.Join_liesUnder mp dst hne hdd, ?_⟩
  by_cases hs : host.stat (filepath.Join mp dst) = StatResult.notExist
  · cases ignore
    · obtain ⟨t, ht, _, b, c1, _⟩ := applyPatch_missing host patch dst c mp hm hs
      rw [ht]
      exact ⟨b, by simp [c1]⟩
    · obtain ⟨t, ht, _, b, c1, _⟩ := applyPatch_skip host patch dst c mp hm hs
      rw [ht]
      exact ⟨b, by simp [c1]⟩
  · obtain ⟨t, ht, _, b, c1, _⟩ := applyPatch_present host patch dst c ignore mp hm hs
    rw [ht]
    exact ⟨b, by simp [c1]⟩

/-- Witness for C10 (amended): a destination with a leading `/` and a doubled
slash stays under the mount. -/
theorem patch_target_under_mount_witness :
    filepath.liesUnder "/mnt/c1" "/mnt/c1/etc/app.conf" ∧
      statCalls (applyPatch demoHost "fix.patch" "/etc//app.conf" (mountable "c1") false).1
        = ["/mnt/c1/etc/app.conf"] ∧
      (∀ args ∈ patchCalls
          (applyPatch demoHost "fix.patch" "/etc//app.conf" (mountable "c1") false).1,
        args = ["/mnt/c1/etc/app.conf", "fix.patch"]) :=
  patch_target_under_mount demoHost "fix.patch" "/etc//app.conf" (mountable "c1") false
    "/mnt/c1" rfl (by decide) (by decide)

end Patch
